import Mathlib

/-!
Verification of the transient-slackbot core logic.

The definitions below are a shallow embedding of the Python sources:
  * `src/voting_system/vote_tracker.py` (vote counts, classification,
    priority queue),
  * `src/transient_monitor.py` (ingestion deduplication, coordinate
    resolution, first-run bootstrap, fail-closed feed reading).

Tabular CSV stores are embedded as Lean lists of rows; pandas row-wise
operations become list traversals in the same order; Python `dict`s of
reaction counts become association lists with first-match lookup; floats
are embedded as the type `F` of either NaN or an exact rational (no
rounding is exercised by the properties below).
-/

namespace TransientBot

/-- A float cell: either NaN (also covering pandas nulls in a float
column) or an exact numeric value. -/
inductive F where
  | nan : F
  | val : ℚ → F
deriving DecidableEq

/-- `pd.isna` / `np.isnan` on a float cell. -/
def F.isNan : F → Bool
  | .nan => true
  | .val _ => false

/-! ## Vote tracker (`src/voting_system/vote_tracker.py`) -/

/-- One row of `vote_counts.csv`. -/
structure VoteRow where
  transient_id : String
  agn_votes : Nat
  interesting_votes : Nat
  star_votes : Nat
  junk_votes : Nat
deriving DecidableEq

/-- One row of `classifications.csv`. -/
structure ClassRow where
  transient_id : String
  classification : String
  confidence : ℚ
deriving DecidableEq

/-- The two persisted tables owned by the vote tracker. -/
structure VotingState where
  votes : List VoteRow
  classes : List ClassRow
deriving DecidableEq

/-- A Python dict of reaction counts, as an association list
(first-match lookup; Python dicts have unique keys). -/
abbrev ReactionCounts := List (String × Nat)

/-- `reaction_counts.get(k, 0)`. -/
def rcGet (rc : ReactionCounts) (k : String) : Nat :=
  match rc.find? (fun p => p.1 == k) with
  | some p => p.2
  | none => 0

/-- The vote row written by `update_vote_counts` for `transient_id`:
each counter is set (overwritten, not added) from the mapped symbol. -/
def mkVoteRow (transient_id : String) (rc : ReactionCounts) : VoteRow :=
  { transient_id := transient_id
    agn_votes := rcGet rc "milky_way"
    interesting_votes := rcGet rc "fire"
    star_votes := rcGet rc "star"
    junk_votes := rcGet rc "wastebasket" }

/-- `votes_df.loc[idx, ...] = ...` at the first index whose
`transient_id` matches: replace the first matching row. -/
def setVoteRowFirst : List VoteRow → String → VoteRow → List VoteRow
  | [], _, _ => []
  | r :: rs, tid, newr =>
    if r.transient_id = tid then newr :: rs
    else r :: setVoteRowFirst rs tid newr

/-- The pure table transformation performed by `update_vote_counts` on
`vote_counts.csv`: update in place if the id is present, else append. -/
def update_vote_counts_table (table : List VoteRow) (tid : String)
    (rc : ReactionCounts) : List VoteRow :=
  if table.any (fun r => r.transient_id = tid) then
    setVoteRowFirst table tid (mkVoteRow tid rc)
  else
    table ++ [mkVoteRow tid rc]

/-- The Python dict `votes = {'AGN': ..., 'Interesting': ..., 'Star': ...,
'Junk': ...}` built from a vote row (field order is its insertion
order). -/
structure Votes where
  agn : Nat
  interesting : Nat
  star : Nat
  junk : Nat
deriving DecidableEq

def rowVotes (r : VoteRow) : Votes :=
  ⟨r.agn_votes, r.interesting_votes, r.star_votes, r.junk_votes⟩

/-- One step of Python `max(votes, key=votes.get)`: keep the current
best unless the candidate is strictly greater. -/
def maxStep (best cand : String × Nat) : String × Nat :=
  if cand.2 > best.2 then cand else best

/-- `max(votes, key=votes.get)` together with its count, folding over
the dict in insertion order AGN, Interesting, Star, Junk. -/
def maxCategory (v : Votes) : String × Nat :=
  maxStep (maxStep (maxStep ("AGN", v.agn) ("Interesting", v.interesting))
    ("Star", v.star)) ("Junk", v.junk)

/-- `max(votes.values())`. -/
def maxVal (v : Votes) : Nat :=
  max (max (max v.agn v.interesting) v.star) v.junk

/-- `sum(votes.values())`. -/
def totalVotes (v : Votes) : Nat :=
  v.agn + v.interesting + v.star + v.junk

/-- `self.thresholds` with `dict.get(k, 999)`. -/
def thresholdsGet (c : String) : Nat :=
  match ([("AGN", 3), ("Interesting", 2), ("Star", 2),
      ("Junk", 3)] : List (String × Nat)).find? (fun p => p.1 == c) with
  | some p => p.2
  | none => 999

/-- `classify_transient`: the max category if its count reaches the
threshold, else "Unclassified". -/
def classify_transient (v : Votes) : String :=
  if maxVal v ≥ thresholdsGet (maxCategory v).1 then (maxCategory v).1
  else "Unclassified"

/-- The confidence computed in `update_classifications`:
`max(votes.values()) / sum(votes.values())` if the sum is positive,
else 0. -/
def confidence (v : Votes) : ℚ :=
  if totalVotes v > 0 then (maxVal v : ℚ) / (totalVotes v : ℚ) else 0

/-- The classification row recomputed from a vote row. -/
def classRowOf (r : VoteRow) : ClassRow :=
  { transient_id := r.transient_id
    classification := classify_transient (rowVotes r)
    confidence := confidence (rowVotes r) }

/-- `class_df.loc[idx, ['classification', 'confidence']] = ...` at the
first matching index: overwrite those two fields of the first row whose
`transient_id` matches. -/
def setClassRowFirst : List ClassRow → ClassRow → List ClassRow
  | [], _ => []
  | c :: cs, cr =>
    if c.transient_id = cr.transient_id then
      { c with classification := cr.classification,
               confidence := cr.confidence } :: cs
    else c :: setClassRowFirst cs cr

/-- Upsert of one recomputed classification row: update the first
matching row in place, else append. -/
def upsertClassRow (cdf : List ClassRow) (cr : ClassRow) : List ClassRow :=
  if cdf.any (fun c => c.transient_id = cr.transient_id) then
    setClassRowFirst cdf cr
  else cdf ++ [cr]

/-- `update_classifications`: for every row of the vote table, in
order, recompute and upsert its classification row. -/
def update_classifications : List VoteRow → List ClassRow → List ClassRow
  | [], cdf => cdf
  | r :: rs, cdf => update_classifications rs (upsertClassRow cdf (classRowOf r))

/-- `update_vote_counts`: write the vote table, then synchronously
recompute the whole classification table from it. -/
def update_vote_counts (s : VotingState) (tid : String)
    (rc : ReactionCounts) : VotingState :=
  let v := update_vote_counts_table s.votes tid rc
  { votes := v, classes := update_classifications v s.classes }

/-- The priority score computed in `get_priority_queue`:
`agn*4 + interesting*3 + star*2 + junk`. -/
def score (r : VoteRow) : Nat :=
  r.agn_votes * 4 + r.interesting_votes * 3 + r.star_votes * 2 + r.junk_votes

/-- The heap entry `(-score, transient_id)` pushed for a vote row. -/
def entryOf (r : VoteRow) : ℤ × String :=
  (-(score r : ℤ), r.transient_id)

/-- The lexicographic order on heap entries used by Python `sorted` on
`(int, str)` tuples. -/
def entryLe (a b : ℤ × String) : Prop :=
  a.1 < b.1 ∨ (a.1 = b.1 ∧ a.2 ≤ b.2)

instance : DecidableRel entryLe := fun a b => by
  unfold entryLe; infer_instance

instance : IsTotal (ℤ × String) entryLe := by
  constructor
  intro a b
  rcases lt_trichotomy a.1 b.1 with h | h | h
  · exact Or.inl (Or.inl h)
  · rcases le_total a.2 b.2 with h2 | h2
    · exact Or.inl (Or.inr ⟨h, h2⟩)
    · exact Or.inr (Or.inr ⟨h.symm, h2⟩)
  · exact Or.inr (Or.inl h)

instance : IsTrans (ℤ × String) entryLe := by
  constructor
  intro a b c hab hbc
  rcases hab with h1 | ⟨h1, h1s⟩
  · rcases hbc with h2 | ⟨h2, _⟩
    · exact Or.inl (h1.trans h2)
    · exact Or.inl (h2 ▸ h1)
  · rcases hbc with h2 | ⟨h2, h2s⟩
    · exact Or.inl (h1 ▸ h2)
    · exact Or.inr ⟨h1.trans h2, le_trans h1s h2s⟩

/-- `get_priority_queue`: push `(-score, id)` for every row, extract in
sorted order and project the ids. Python `sorted` on tuples is the
unique sort for the lexicographic linear order, embedded here as an
insertion sort by `entryLe`. -/
def get_priority_queue (table : List VoteRow) : List String :=
  ((table.map entryOf).insertionSort entryLe).map Prod.snd

/-! ## Transient monitor (`src/transient_monitor.py`) -/

/-- One row of the detection feed `transients.txt`. The `centroid`
columns are either both present in the row index or both absent (they
come from the same DataFrame); `status` is `none` for a NaN/absent
status; times are embedded as integers (seconds). -/
structure FeedRow where
  source : String
  observation : String
  ra_deg : F
  dec_deg : F
  centroid : Option (F × F)
  time : Int
  status : Option String
deriving DecidableEq

/-- One row of the processed ledger `new_transients.csv` (the
`columns_to_save` subset plus `processed_at`; centroid columns are not
persisted). -/
structure ProcessedRow where
  source : String
  observation : String
  ra_deg : F
  dec_deg : F
  time : Int
  status : Option String
  processed_at : Int
deriving DecidableEq

/-- The identity key `source + "_" + observation`. -/
def rowKey (s o : String) : String := s ++ "_" ++ o

def feedKey (r : FeedRow) : String := rowKey r.source r.observation

def ledgerKey (r : ProcessedRow) : String := rowKey r.source r.observation

/-- `(status == 'new') | (status.isna())`. -/
def statusEligible (r : FeedRow) : Bool :=
  r.status == some "new" || r.status == none

/-- 30 days in seconds (`pd.Timedelta(days=30)`). -/
def thirtyDays : Int := 30 * 24 * 60 * 60

/-- The selection step of `check_for_new_transients` (the spec's
`select_new_detections`): with a non-empty ledger, keep feed rows whose
key is not in the ledger and whose status is "new" or null; with an
empty ledger (first run), keep rows with null status newer than
`now - 30 days`. -/
def select_new_detections (feed : List FeedRow) (ledger : List ProcessedRow)
    (now : Int) : List FeedRow :=
  if ledger.length > 0 then
    feed.filter (fun r =>
      !((ledger.map ledgerKey).contains (feedKey r)) && statusEligible r)
  else
    feed.filter (fun r =>
      r.status == none && decide (r.time > now - thirtyDays))

/-- The ledger row written by `save_new_transients` for a feed row
(`columns_to_save` plus `processed_at = now`). -/
def saveRow (r : FeedRow) (now : Int) : ProcessedRow :=
  { source := r.source
    observation := r.observation
    ra_deg := r.ra_deg
    dec_deg := r.dec_deg
    time := r.time
    status := r.status
    processed_at := now }

/-- `save_new_transients(new, processed)`: the CSV is rewritten with
`processed` (when non-empty) followed by the new rows; when `processed`
is empty only the new rows are written. -/
def save_new_transients (newRows : List FeedRow) (processed : List ProcessedRow)
    (now : Int) : List ProcessedRow :=
  if processed.length > 0 then processed ++ newRows.map (saveRow · now)
  else newRows.map (saveRow · now)

/-- The result of reading the detection feed: missing file, a parse
exception, or the parsed rows. -/
inductive FeedRead where
  | missing : FeedRead
  | malformed : FeedRead
  | ok : List FeedRow → FeedRead
deriving DecidableEq

/-- Outcome of one ingestion run: an error (missing feed prints an
error and returns early; a malformed feed raises before any write), or
a completed run with the announced batch. -/
inductive RunResult where
  | error : RunResult
  | ran : List FeedRow → RunResult
deriving DecidableEq

/-- The persisted state touched by an ingestion run: the processed
ledger (`new_transients.csv`, `[]` for an absent file) and the
last-check watermark (`last_check.txt`). -/
structure MonitorState where
  ledger : List ProcessedRow
  lastCheck : Option Int
deriving DecidableEq

/-- `check_for_new_transients` as a state transformer. On a missing or
malformed feed nothing is written and the watermark is untouched.
Otherwise: select, announce the first 5, append them to the ledger;
on a first run additionally rewrite the ledger with the historical
`status == "new"` rows (passing an empty frame to
`save_new_transients`), then advance the watermark. -/
def check_for_new_transients (feed : FeedRead) (st : MonitorState)
    (now : Int) : MonitorState × RunResult :=
  match feed with
  | .missing => (st, .error)
  | .malformed => (st, .error)
  | .ok rows =>
    let processed := st.ledger
    let finalNew := select_new_detections rows processed now
    let toPost := finalNew.take 5
    let hist := rows.filter (fun r => r.status == some "new")
    let ledger1 :=
      if toPost.length > 0 then
        let l1 := save_new_transients toPost processed now
        if processed.length = 0 then
          if hist.length > 0 then save_new_transients hist [] now else l1
        else l1
      else
        if processed.length = 0 then
          if hist.length > 0 then save_new_transients hist [] now else processed
        else processed
    ({ ledger := ledger1, lastCheck := some now }, .ran toPost)

/-- The coordinate pair chosen by `process_transient_coordinates`
before normalization: the centroid pair when the centroid columns are
present and `centroid_ra[deg]` is not NaN, else the primary pair. -/
def chosenCoords (row : FeedRow) : F × F :=
  match row.centroid with
  | some (cra, cdec) =>
    if cra.isNan then (row.ra_deg, row.dec_deg) else (cra, cdec)
  | none => (row.ra_deg, row.dec_deg)

/-- `ra < 0` on a float (false for NaN, as in Python). -/
def F.ltZero : F → Bool
  | .nan => false
  | .val q => decide (q < 0)

/-- `ra + 360.0` on a float. -/
def F.add360 : F → F
  | .nan => .nan
  | .val q => .val (q + 360)

/-- `process_transient_coordinates`: choose centroid or primary
coordinates, then add 360 to a negative RA; Dec is untouched. -/
def process_transient_coordinates (row : FeedRow) : F × F :=
  let rd := chosenCoords row
  if rd.1.ltZero then (rd.1.add360, rd.2) else rd

/-- `find?` for a transient id in the vote table. -/
def findVote (t : List VoteRow) (tid : String) : Option VoteRow :=
  t.find? (fun r => r.transient_id = tid)

/-- `find?` for a transient id in the classification table. -/
def findClass (cdf : List ClassRow) (tid : String) : Option ClassRow :=
  cdf.find? (fun c => c.transient_id = tid)

/-! ## Spec-side definitions

Definitions in this section follow the wording of the specification
(not the code); they exist to be compared against the embedded code
above. -/

/-- The priority score as worded by the spec:
`Interesting*5 + AGN*4 + Star*3 + Junk*2`. -/
def specScore (r : VoteRow) : Nat :=
  r.interesting_votes * 5 + r.agn_votes * 4 + r.star_votes * 3 +
    r.junk_votes * 2

/-- The priority queue as worded by the spec: identifiers ordered by
`specScore` descending, ties by ascending `transient_id`. -/
def spec_priority_queue (table : List VoteRow) : List String :=
  ((table.map (fun r => (-(specScore r : ℤ), r.transient_id))).insertionSort
    entryLe).map Prod.snd

/-- The winner as worded by the spec: the category with the maximum
count, ties broken by the first category reaching the maximum in
enumeration order AGN, Interesting, Star, Junk. -/
def specWinner (v : Votes) : String :=
  if v.agn ≥ v.interesting ∧ v.agn ≥ v.star ∧ v.agn ≥ v.junk then "AGN"
  else if v.interesting ≥ v.star ∧ v.interesting ≥ v.junk then "Interesting"
  else if v.star ≥ v.junk then "Star"
  else "Junk"

/-- The winner's count as worded by the spec. -/
def specCount (v : Votes) (c : String) : Nat :=
  if c = "AGN" then v.agn
  else if c = "Interesting" then v.interesting
  else if c = "Star" then v.star
  else v.junk

/-- The fixed thresholds as worded by the spec. -/
def specThreshold (c : String) : Nat :=
  if c = "AGN" then 3
  else if c = "Interesting" then 2
  else if c = "Star" then 2
  else 3

/-- The classification as worded by the spec: the winner when its count
meets its threshold, else "Unclassified". -/
def specClassify (v : Votes) : String :=
  if specCount v (specWinner v) ≥ specThreshold (specWinner v) then
    specWinner v
  else "Unclassified"

/-- The confidence as worded by the spec: maximum count over total when
the total is positive, 0 when all counts are zero. -/
def specConfidence (v : Votes) : ℚ :=
  if totalVotes v > 0 then (maxVal v : ℚ) / (totalVotes v : ℚ) else 0

/-- Coordinate resolution as worded by the spec: the centroid pair is
used only when both centroid RA and centroid Dec are present and not
NaN; the same RA normalization is applied. -/
def specResolveCoordinates (row : FeedRow) : F × F :=
  let rd :=
    match row.centroid with
    | some (cra, cdec) =>
      if cra.isNan || cdec.isNan then (row.ra_deg, row.dec_deg)
      else (cra, cdec)
    | none => (row.ra_deg, row.dec_deg)
  if rd.1.ltZero then (rd.1.add360, rd.2) else rd

/-! ## Theorems -/

/-- C9: fail-closed ingestion — when the detection feed cannot be read
(missing file or parse failure), `check_for_new_transients` reports an
error, leaves the processed ledger (and the whole state) unchanged and
does not advance the last-check watermark. -/
theorem C9_fail_closed (feed : FeedRead) (st : MonitorState) (now : Int)
    (h : feed = FeedRead.missing ∨ feed = FeedRead.malformed) :
    check_for_new_transients feed st now = (st, RunResult.error) := by
  rcases h with h | h <;> subst h <;> rfl

theorem C9_fail_closed_witness :
    ((FeedRead.missing = FeedRead.missing ∨
        FeedRead.missing = FeedRead.malformed) ∧
      check_for_new_transients FeedRead.missing
        ⟨[⟨"a", "b", F.val 1, F.val 2, 3, none, 4⟩], some 7⟩ 9 =
        (⟨[⟨"a", "b", F.val 1, F.val 2, 3, none, 4⟩], some 7⟩,
          RunResult.error)) :=
  ⟨Or.inl rfl,
    C9_fail_closed FeedRead.missing
      ⟨[⟨"a", "b", F.val 1, F.val 2, 3, none, 4⟩], some 7⟩ 9 (Or.inl rfl)⟩

/-- C5: no re-announcement — a detection whose identity key is already
in the processed ledger is never selected again; indeed no selected row
carries that key, for any feed contents or ordering. -/
theorem C5_no_reannouncement (feed : List FeedRow) (ledger : List ProcessedRow)
    (now : Int) (d : FeedRow) (h : feedKey d ∈ ledger.map ledgerKey) :
    d ∉ select_new_detections feed ledger now ∧
      ∀ r ∈ select_new_detections feed ledger now, feedKey r ≠ feedKey d := by
  have hne : ledger.length > 0 := by
    cases ledger
    · simp at h
    · simp
  have key : ∀ r ∈ select_new_detections feed ledger now,
      feedKey r ≠ feedKey d := by
    intro r hr hkey
    unfold select_new_detections at hr
    rw [if_pos hne] at hr
    rw [List.mem_filter] at hr
    obtain ⟨-, hcond⟩ := hr
    rw [hkey] at hcond
    simp [h] at hcond
  exact ⟨fun hd => key d hd rfl, key⟩

theorem C5_no_reannouncement_witness :
    (feedKey ⟨"s", "o", F.val 1, F.val 2, none, 3, none⟩ ∈
        ([⟨"s", "o", F.val 1, F.val 2, 3, none, 4⟩] :
          List ProcessedRow).map ledgerKey) ∧
      (⟨"s", "o", F.val 1, F.val 2, none, 3, none⟩ ∉
          select_new_detections [⟨"s", "o", F.val 1, F.val 2, none, 3, none⟩]
            [⟨"s", "o", F.val 1, F.val 2, 3, none, 4⟩] 5 ∧
        ∀ r ∈ select_new_detections [⟨"s", "o", F.val 1, F.val 2, none, 3, none⟩]
            [⟨"s", "o", F.val 1, F.val 2, 3, none, 4⟩] 5,
          feedKey r ≠ feedKey ⟨"s", "o", F.val 1, F.val 2, none, 3, none⟩) :=
  ⟨by decide,
    C5_no_reannouncement [⟨"s", "o", F.val 1, F.val 2, none, 3, none⟩]
      [⟨"s", "o", F.val 1, F.val 2, 3, none, 4⟩] 5
      ⟨"s", "o", F.val 1, F.val 2, none, 3, none⟩ (by decide)⟩

/-- Vote record A of the spec example, `{Interesting: 1}`. -/
def voteRowA : VoteRow := ⟨"A", 0, 1, 0, 0⟩

/-- Vote record B with a single AGN vote. -/
def voteRowB : VoteRow := ⟨"B", 1, 0, 0, 0⟩

/-- C2 counterexample: the code orders by
`agn*4 + interesting*3 + star*2 + junk`, not by the claimed weights
`Interesting*5 + AGN*4 + Star*3 + Junk*2`. For A = {Interesting: 1} and
B = {AGN: 1} the claimed score of A (5) exceeds that of B (4), so the
claimed ordering would return ["A", "B"], but the code returns
["B", "A"]. -/
theorem C2_counterexample :
    specScore voteRowA > specScore voteRowB ∧
      get_priority_queue [voteRowA, voteRowB] = ["B", "A"] ∧
      spec_priority_queue [voteRowA, voteRowB] = ["A", "B"] := by
  decide

/-- C2 (amended): `get_priority_queue` returns all known identifiers as
the projection of the sorted (by `entryLe`, i.e. score
`agn*4 + interesting*3 + star*2 + junk` descending with ties broken by
ascending `transient_id`) permutation of the heap entries; in
particular the output is a permutation of all identifiers. -/
theorem C2_priority_order (table : List VoteRow) :
    ((table.map entryOf).insertionSort entryLe).Sorted entryLe ∧
      List.Perm ((table.map entryOf).insertionSort entryLe)
        (table.map entryOf) ∧
      get_priority_queue table =
        ((table.map entryOf).insertionSort entryLe).map Prod.snd ∧
      List.Perm (get_priority_queue table)
        (table.map VoteRow.transient_id) := by
  refine ⟨List.sorted_insertionSort entryLe _,
    List.perm_insertionSort entryLe _, rfl, ?_⟩
  have h2 : (table.map entryOf).map Prod.snd =
      table.map VoteRow.transient_id := by
    rw [List.map_map]; rfl
  have h := (List.perm_insertionSort entryLe (table.map entryOf)).map Prod.snd
  rw [h2] at h
  exact h

/-- A feed row whose centroid RA is valid but whose centroid Dec is
NaN. -/
def rowCentroidNaN : FeedRow :=
  ⟨"S", "1", F.val 1, F.val 2, some (F.val 5, F.nan), 0, none⟩

/-- A feed row with no centroid columns and `ra_deg = -400`. -/
def rowFarNegRa : FeedRow :=
  ⟨"S", "1", F.val (-400), F.val 2, none, 0, none⟩

/-- C3 counterexample: the code checks only `centroid_ra[deg]` for
validity, not both centroid coordinates. On a row with a valid centroid
RA and a NaN centroid Dec the code keeps the centroid pair (returning a
NaN declination), while the claimed rule falls back to the primary
pair. Moreover the claimed "the resolved RA lies in [0, 360)" fails for
a chosen RA below -360: 360 is added only once, so `ra_deg = -400`
resolves to RA -40, which is not in [0, 360). -/
theorem C3_counterexample :
    process_transient_coordinates rowCentroidNaN = (F.val 5, F.nan) ∧
      specResolveCoordinates rowCentroidNaN = (F.val 1, F.val 2) ∧
      process_transient_coordinates rowCentroidNaN ≠
        specResolveCoordinates rowCentroidNaN ∧
      process_transient_coordinates rowFarNegRa = (F.val (-40), F.val 2) ∧
      ¬ (0 : ℚ) ≤ -40 := by
  refine ⟨by decide, by decide, by decide, ?_, by norm_num⟩
  have h1 : process_transient_coordinates rowFarNegRa =
      ((F.val (-400)).add360, F.val 2) := by
    rw [show process_transient_coordinates rowFarNegRa =
        if (chosenCoords rowFarNegRa).1.ltZero then
          ((chosenCoords rowFarNegRa).1.add360, (chosenCoords rowFarNegRa).2)
        else chosenCoords rowFarNegRa from rfl]
    rw [show chosenCoords rowFarNegRa = (F.val (-400), F.val 2) from rfl]
    norm_num [F.ltZero]
  rw [h1]
  show (F.val (-400 + 360), F.val 2) = (F.val (-40), F.val 2)
  norm_num

/-- The spec's worked example: a row with no centroid columns and
`ra_deg = -10`. -/
def rowNegRa : FeedRow := ⟨"S", "1", F.val (-10), F.val 2, none, 0, none⟩

/-- C3 (amended): the resolved pair is the centroid pair whenever the
centroid columns are present and centroid RA alone is non-null and not
NaN (centroid Dec is not checked); otherwise (centroid columns absent,
or centroid RA NaN) it is the primary pair. The declination is always
returned unchanged. If the chosen RA is a number q, then 360 is added
exactly when q is negative, so a chosen RA in [-360, 360) resolves into
[0, 360) (beyond that range it does not, per the counterexample); a NaN
chosen RA passes through. Example: `ra_deg = -10` resolves to RA 350. -/
theorem C3_resolution (row : FeedRow) :
    (∀ cra cdec, row.centroid = some (cra, cdec) → cra.isNan = false →
        chosenCoords row = (cra, cdec)) ∧
      (∀ cra cdec, row.centroid = some (cra, cdec) → cra.isNan = true →
        chosenCoords row = (row.ra_deg, row.dec_deg)) ∧
      (row.centroid = none →
        chosenCoords row = (row.ra_deg, row.dec_deg)) ∧
      (process_transient_coordinates row).2 = (chosenCoords row).2 ∧
      (∀ q : ℚ, (chosenCoords row).1 = F.val q →
        (q < 0 → (process_transient_coordinates row).1 = F.val (q + 360)) ∧
        (0 ≤ q → (process_transient_coordinates row).1 = F.val q) ∧
        (-360 ≤ q → q < 360 →
          ∃ q2, (process_transient_coordinates row).1 = F.val q2 ∧
            0 ≤ q2 ∧ q2 < 360)) ∧
      ((chosenCoords row).1 = F.nan →
        (process_transient_coordinates row).1 = F.nan) ∧
      process_transient_coordinates rowNegRa = (F.val 350, F.val 2) := by
  have hproc : process_transient_coordinates row =
      if (chosenCoords row).1.ltZero then
        ((chosenCoords row).1.add360, (chosenCoords row).2)
      else chosenCoords row := rfl
  have hex : process_transient_coordinates rowNegRa = (F.val 350, F.val 2) := by
    have h1 : process_transient_coordinates rowNegRa =
        ((F.val (-10)).add360, F.val 2) := by
      rw [show process_transient_coordinates rowNegRa =
          if (chosenCoords rowNegRa).1.ltZero then
            ((chosenCoords rowNegRa).1.add360, (chosenCoords rowNegRa).2)
          else chosenCoords rowNegRa from rfl]
      rw [show chosenCoords rowNegRa = (F.val (-10), F.val 2) from rfl]
      norm_num [F.ltZero]
    rw [h1]
    show (F.val (-10 + 360), F.val 2) = (F.val 350, F.val 2)
    norm_num
  refine ⟨?_, ?_, ?_, ?_, ?_, ?_, hex⟩
  · intro cra cdec hc hn
    simp [chosenCoords, hc, hn]
  · intro cra cdec hc hn
    simp [chosenCoords, hc, hn]
  · intro hc
    simp [chosenCoords, hc]
  · rw [hproc]
    by_cases hlt : (chosenCoords row).1.ltZero <;> simp [hlt]
  · intro q hq
    by_cases hneg : q < 0
    · have hlt : (chosenCoords row).1.ltZero = true := by
        rw [hq]; simp [F.ltZero, hneg]
      have h1 : (process_transient_coordinates row).1 = F.val (q + 360) := by
        rw [hproc, if_pos hlt]
        show (chosenCoords row).1.add360 = F.val (q + 360)
        rw [hq]
        rfl
      exact ⟨fun _ => h1, fun h0 => absurd h0 (not_le.mpr hneg),
        fun hlo hhi => ⟨q + 360, h1, by linarith, by linarith⟩⟩
    · have hlt : (chosenCoords row).1.ltZero = false := by
        rw [hq]; simp [F.ltZero, hneg]
      have h1 : (process_transient_coordinates row).1 = F.val q := by
        rw [hproc, if_neg (by simp [hlt])]
        exact hq
      exact ⟨fun hc => absurd hc hneg, fun _ => h1,
        fun hlo hhi => ⟨q, h1, not_lt.mp hneg, hhi⟩⟩
  · intro hnan
    have hlt : (chosenCoords row).1.ltZero = false := by
      rw [hnan]; rfl
    rw [hproc, if_neg (by simp [hlt])]
    exact hnan

/-- A historical feed row: `status == "new"`, older than 30 days. -/
def feedRowHist : FeedRow := ⟨"H", "1", F.val 1, F.val 2, none, 0, some "new"⟩

/-- A recent feed row: null status, newer than 30 days. -/
def feedRowRecent : FeedRow :=
  ⟨"R", "1", F.val 3, F.val 4, none, 9999900, none⟩

/-- The run time used for the bootstrap run below. -/
def runNow : Int := 10000000

/-- C1: bootstrap run on an empty ledger with N = 1 historical row (H,
`status == "new"`, older than 30 days) and M = 1 recent null-status row
(R). The run announces exactly min(M, 5) = 1 row (R), and first writes
the announced batch to the ledger — but the first-run handling then
calls `save_new_transients(historical_new, pd.DataFrame())`, which
rewrites the CSV with only the historical rows. The final ledger
contains H only: the announced row R is dropped, so it will be
re-announced on the next run, contradicting both the stated bootstrap
containment and the dedup design. -/
theorem C1_bootstrap_drops_announced :
    feedRowHist.time < runNow - thirtyDays ∧
      feedRowRecent.time > runNow - thirtyDays ∧
      check_for_new_transients (FeedRead.ok [feedRowHist, feedRowRecent])
        ⟨[], none⟩ runNow =
        (⟨[saveRow feedRowHist runNow], some runNow⟩,
          RunResult.ran [feedRowRecent]) ∧
      saveRow feedRowRecent runNow ∉
        (check_for_new_transients (FeedRead.ok [feedRowHist, feedRowRecent])
          ⟨[], none⟩ runNow).1.ledger := by
  decide

/-- Python `max(votes, key=votes.get)` picks the first category
attaining the maximum count in insertion order AGN, Interesting, Star,
Junk, paired with the maximum count itself. -/
theorem maxCategory_eq (v : Votes) : maxCategory v = (specWinner v, maxVal v) := by
  unfold maxCategory maxStep specWinner maxVal
  rcases v with ⟨a, i, s, j⟩
  simp only
  split_ifs <;> simp_all <;> omega

/-- C4: `classify_transient` returns the first category reaching the
maximum count (order AGN, Interesting, Star, Junk) when its count meets
its fixed threshold (AGN 3, Interesting 2, Star 2, Junk 3) and
"Unclassified" otherwise, and the confidence is max count over total
count (0 on an all-zero record), independently of classification. -/
theorem C4_classification (v : Votes) :
    classify_transient v = specClassify v ∧ confidence v = specConfidence v := by
  constructor
  · have hth : thresholdsGet (specWinner v) = specThreshold (specWinner v) := by
      unfold specWinner
      split_ifs <;> decide
    have hcnt : specCount v (specWinner v) = maxVal v := by
      unfold specCount specWinner maxVal
      rcases v with ⟨a, i, s, j⟩
      simp only
      split_ifs <;> simp_all <;> omega
    unfold classify_transient specClassify
    rw [maxCategory_eq, hth, hcnt]
  · rfl

/-- `find?` skips a prefix with no matching id. -/
theorem findVote_append_no_match (t l : List VoteRow) (tid : String)
    (h : ∀ x ∈ t, x.transient_id ≠ tid) :
    findVote (t ++ l) tid = findVote l tid := by
  induction t with
  | nil => rfl
  | cons x xs ih =>
    have hx := h x (by simp)
    simp only [List.cons_append, findVote, List.find?]
    rw [decide_eq_false hx]
    exact ih (fun y hy => h y (by simp [hy]))

/-- After replacing the first matching row, `find?` returns the
replacement. -/
theorem findVote_setVoteRowFirst (t : List VoteRow) (tid : String) (r : VoteRow)
    (hr : r.transient_id = tid) (h : t.any (fun x => x.transient_id = tid)) :
    findVote (setVoteRowFirst t tid r) tid = some r := by
  induction t with
  | nil => simp at h
  | cons x xs ih =>
    by_cases hx : x.transient_id = tid
    · simp [setVoteRowFirst, hx, findVote, List.find?, hr]
    · have h' : xs.any (fun x => x.transient_id = tid) := by
        simp only [List.any_cons, Bool.or_eq_true] at h
        rcases h with h | h
        · exact absurd (of_decide_eq_true h) hx
        · exact h
      simp only [setVoteRowFirst, if_neg hx, findVote, List.find?]
      rw [decide_eq_false hx]
      exact ih h'

/-- The row stored for `tid` after `update_vote_counts` is exactly
`mkVoteRow tid rc`. -/
theorem findVote_update (t : List VoteRow) (tid : String) (rc : ReactionCounts) :
    findVote (update_vote_counts_table t tid rc) tid = some (mkVoteRow tid rc) := by
  unfold update_vote_counts_table
  by_cases h : t.any (fun x => x.transient_id = tid)
  · rw [if_pos h]
    exact findVote_setVoteRowFirst t tid _ rfl h
  · rw [if_neg h]
    have hno : ∀ x ∈ t, x.transient_id ≠ tid := by
      simpa using h
    rw [findVote_append_no_match t _ tid hno]
    simp [findVote, List.find?, mkVoteRow]

/-- C6: vote overwrite semantics — after `update_vote_counts` the
stored row for the identifier has each counter set to the mapping's
value at its symbol (0 when absent), an overwrite rather than an
addition; in particular updating "X" with {fire: 3} and then with
{fire: 1, milky_way: 2} leaves interesting = 1, agn = 2. -/
theorem C6_vote_overwrite (s : VotingState) (tid : String) (rc : ReactionCounts) :
    findVote (update_vote_counts s tid rc).votes tid = some (mkVoteRow tid rc) ∧
      (mkVoteRow tid rc).agn_votes = rcGet rc "milky_way" ∧
      (mkVoteRow tid rc).interesting_votes = rcGet rc "fire" ∧
      (mkVoteRow tid rc).star_votes = rcGet rc "star" ∧
      (mkVoteRow tid rc).junk_votes = rcGet rc "wastebasket" ∧
      (update_vote_counts (update_vote_counts ⟨[], []⟩ "X" [("fire", 3)]) "X"
          [("fire", 1), ("milky_way", 2)]).votes = [⟨"X", 2, 1, 0, 0⟩] :=
  ⟨findVote_update s.votes tid rc, rfl, rfl, rfl, rfl, by decide⟩

/-- C10: only the four mapped reaction symbols affect the persisted
state — two mappings agreeing at "milky_way", "fire", "star" and
"wastebasket" produce identical vote and classification tables. -/
theorem C10_only_mapped_symbols (s : VotingState) (tid : String)
    (rc1 rc2 : ReactionCounts)
    (h1 : rcGet rc1 "milky_way" = rcGet rc2 "milky_way")
    (h2 : rcGet rc1 "fire" = rcGet rc2 "fire")
    (h3 : rcGet rc1 "star" = rcGet rc2 "star")
    (h4 : rcGet rc1 "wastebasket" = rcGet rc2 "wastebasket") :
    update_vote_counts s tid rc1 = update_vote_counts s tid rc2 := by
  have hmk : mkVoteRow tid rc1 = mkVoteRow tid rc2 := by
    simp [mkVoteRow, h1, h2, h3, h4]
  unfold update_vote_counts update_vote_counts_table
  rw [hmk]

theorem C10_only_mapped_symbols_witness :
    (rcGet [("fire", 1), ("rocket", 7)] "milky_way" =
          rcGet [("fire", 1)] "milky_way" ∧
        rcGet [("fire", 1), ("rocket", 7)] "fire" = rcGet [("fire", 1)] "fire" ∧
        rcGet [("fire", 1), ("rocket", 7)] "star" = rcGet [("fire", 1)] "star" ∧
        rcGet [("fire", 1), ("rocket", 7)] "wastebasket" =
          rcGet [("fire", 1)] "wastebasket") ∧
      update_vote_counts ⟨[], []⟩ "X" [("fire", 1), ("rocket", 7)] =
        update_vote_counts ⟨[], []⟩ "X" [("fire", 1)] :=
  ⟨⟨by decide, by decide, by decide, by decide⟩,
    C10_only_mapped_symbols ⟨[], []⟩ "X" [("fire", 1), ("rocket", 7)]
      [("fire", 1)] (by decide) (by decide) (by decide) (by decide)⟩

theorem findClass_setClassRowFirst (cdf : List ClassRow) (cr : ClassRow)
    (h : cdf.any (fun c => c.transient_id = cr.transient_id)) :
    findClass (setClassRowFirst cdf cr) cr.transient_id = some cr := by
  induction cdf with
  | nil => simp at h
  | cons c cs ih =>
    by_cases hc : c.transient_id = cr.transient_id
    · obtain ⟨ct, cc, cf⟩ := cr
      simp_all [setClassRowFirst, findClass, List.find?]
    · have h' : cs.any (fun x => x.transient_id = cr.transient_id) := by
        simp only [List.any_cons, Bool.or_eq_true] at h
        rcases h with h | h
        · exact absurd (of_decide_eq_true h) hc
        · exact h
      simp only [setClassRowFirst, if_neg hc, findClass, List.find?]
      rw [decide_eq_false hc]
      exact ih h'

theorem findClass_upsert_self (cdf : List ClassRow) (cr : ClassRow) :
    findClass (upsertClassRow cdf cr) cr.transient_id = some cr := by
  unfold upsertClassRow
  by_cases h : cdf.any (fun c => c.transient_id = cr.transient_id)
  · rw [if_pos h]
    exact findClass_setClassRowFirst cdf cr h
  · rw [if_neg h]
    have hno : ∀ x ∈ cdf, x.transient_id ≠ cr.transient_id := by simpa using h
    induction cdf with
    | nil => simp [findClass, List.find?]
    | cons c cs ih =>
      have hc := hno c (by simp)
      simp only [List.cons_append, findClass, List.find?]
      rw [decide_eq_false hc]
      exact ih (by simpa using fun x hx => hno x (by simp [hx])) (fun x hx => hno x (by simp [hx]))

theorem findClass_setClassRowFirst_ne (cdf : List ClassRow) (cr : ClassRow)
    (t : String) (ht : t ≠ cr.transient_id) :
    findClass (setClassRowFirst cdf cr) t = findClass cdf t := by
  induction cdf with
  | nil => rfl
  | cons c cs ih =>
    obtain ⟨ct, cc, cf⟩ := c
    by_cases hc : ct = cr.transient_id
    · have hct : ct ≠ t := fun hh => ht (hh.symm.trans hc)
      simp only [setClassRowFirst, if_pos hc, findClass, List.find?]
      rw [decide_eq_false hct]
    · simp only [setClassRowFirst, if_neg hc, findClass, List.find?]
      by_cases hct : ct = t
      · rw [decide_eq_true hct]
      · rw [decide_eq_false hct]
        exact ih

theorem findClass_upsert_ne (cdf : List ClassRow) (cr : ClassRow)
    (t : String) (ht : t ≠ cr.transient_id) :
    findClass (upsertClassRow cdf cr) t = findClass cdf t := by
  unfold upsertClassRow
  by_cases h : cdf.any (fun c => c.transient_id = cr.transient_id)
  · rw [if_pos h]
    exact findClass_setClassRowFirst_ne cdf cr t ht
  · rw [if_neg h]
    induction cdf with
    | nil =>
      simp only [List.nil_append, findClass, List.find?]
      rw [decide_eq_false (fun hh => ht hh.symm)]
    | cons c cs ih =>
      simp only [List.cons_append, findClass, List.find?]
      by_cases hct : c.transient_id = t
      · rw [decide_eq_true hct]
      · rw [decide_eq_false hct]
        exact ih (by simp_all)

theorem findClass_updC_not_mem (V : List VoteRow) (cdf : List ClassRow)
    (t : String) (h : t ∉ V.map VoteRow.transient_id) :
    findClass (update_classifications V cdf) t = findClass cdf t := by
  induction V generalizing cdf with
  | nil => rfl
  | cons r rs ih =>
    have ht : t ≠ (classRowOf r).transient_id := by
      intro hh
      apply h
      simp only [classRowOf] at hh
      simp [hh]
    simp only [update_classifications]
    rw [ih _ (fun hm => h (by simp [hm]))]
    exact findClass_upsert_ne cdf (classRowOf r) t ht

/-- After a full recompute over a duplicate-free vote table, every vote
row's classification is exactly the recomputed one. -/
theorem findClass_updC_mem (V : List VoteRow) (cdf : List ClassRow)
    (hnd : (V.map VoteRow.transient_id).Nodup) :
    ∀ r ∈ V, findClass (update_classifications V cdf) r.transient_id =
      some (classRowOf r) := by
  induction V generalizing cdf with
  | nil => simp
  | cons v vs ih =>
    intro r hr
    rcases List.mem_cons.mp hr with h | h
    · subst h
      simp only [update_classifications]
      have hnot : r.transient_id ∉ vs.map VoteRow.transient_id := by
        simp only [List.map_cons, List.nodup_cons] at hnd
        exact hnd.1
      rw [findClass_updC_not_mem vs _ _ hnot]
      exact findClass_upsert_self cdf (classRowOf r)
    · simp only [update_classifications]
      have hnd2 : (vs.map VoteRow.transient_id).Nodup := by
        simp only [List.map_cons, List.nodup_cons] at hnd
        exact hnd.2
      exact ih _ hnd2 r h

/-- In-place field overwrites do not change the id column. -/
theorem map_tid_setClassRowFirst (cdf : List ClassRow) (cr : ClassRow) :
    (setClassRowFirst cdf cr).map ClassRow.transient_id =
      cdf.map ClassRow.transient_id := by
  induction cdf with
  | nil => rfl
  | cons x xs ih =>
    by_cases hx : x.transient_id = cr.transient_id <;>
      simp [setClassRowFirst, hx, ih]

/-- Ids present after an upsert were present before or are the upserted
id. -/
theorem mem_map_tid_upsert (cdf : List ClassRow) (cr : ClassRow) (t : String)
    (h : t ∈ (upsertClassRow cdf cr).map ClassRow.transient_id) :
    t ∈ cdf.map ClassRow.transient_id ∨ t = cr.transient_id := by
  unfold upsertClassRow at h
  by_cases ha : cdf.any (fun x => x.transient_id = cr.transient_id)
  · rw [if_pos ha, map_tid_setClassRowFirst] at h
    exact Or.inl h
  · rw [if_neg ha] at h
    simp only [List.map_append, List.mem_append] at h
    rcases h with h | h
    · exact Or.inl h
    · simp at h
      exact Or.inr h

/-- Ids present after the full recompute were present before or belong
to some vote row. -/
theorem mem_map_tid_updC (V : List VoteRow) (cdf : List ClassRow) (t : String)
    (h : t ∈ (update_classifications V cdf).map ClassRow.transient_id) :
    t ∈ cdf.map ClassRow.transient_id ∨ t ∈ V.map VoteRow.transient_id := by
  induction V generalizing cdf with
  | nil => exact Or.inl h
  | cons v vs ih =>
    simp only [update_classifications] at h
    rcases ih _ h with h2 | h2
    · rcases mem_map_tid_upsert cdf (classRowOf v) t h2 with h3 | h3
      · exact Or.inl h3
      · right
        simp only [classRowOf] at h3
        simp [h3]
    · right
      simp [h2]

/-- Replacing the first matching vote row with a row of the same id
keeps the id column unchanged. -/
theorem map_tid_setVoteRowFirst (t : List VoteRow) (tid : String) (r : VoteRow)
    (hr : r.transient_id = tid) :
    (setVoteRowFirst t tid r).map VoteRow.transient_id =
      t.map VoteRow.transient_id := by
  induction t with
  | nil => rfl
  | cons x xs ih =>
    by_cases hx : x.transient_id = tid
    · simp [setVoteRowFirst, hx, hr]
    · simp [setVoteRowFirst, hx, ih]

/-- Ids in the vote table survive `update_vote_counts`. -/
theorem mem_map_tid_update_table (t : List VoteRow) (tid x : String)
    (rc : ReactionCounts) (h : x ∈ t.map VoteRow.transient_id) :
    x ∈ (update_vote_counts_table t tid rc).map VoteRow.transient_id := by
  unfold update_vote_counts_table
  by_cases ha : t.any (fun r => r.transient_id = tid)
  · rw [if_pos ha, map_tid_setVoteRowFirst t tid _ rfl]
    exact h
  · rw [if_neg ha]
    simp only [List.map_append, List.mem_append]
    exact Or.inl h

/-- `update_vote_counts` keeps the id column duplicate-free. -/
theorem nodup_update_table (t : List VoteRow) (tid : String)
    (rc : ReactionCounts) (h : (t.map VoteRow.transient_id).Nodup) :
    ((update_vote_counts_table t tid rc).map VoteRow.transient_id).Nodup := by
  unfold update_vote_counts_table
  by_cases ha : t.any (fun r => r.transient_id = tid)
  · rw [if_pos ha, map_tid_setVoteRowFirst t tid _ rfl]
    exact h
  · rw [if_neg ha]
    have hno : tid ∉ t.map VoteRow.transient_id := by
      intro hm
      rcases List.mem_map.mp hm with ⟨r, hr, hrt⟩
      simp only [List.any_eq_true] at ha
      exact ha ⟨r, hr, by simp [hrt]⟩
    simp [List.nodup_append, h, hno, mkVoteRow]

/-- C7: after `update_vote_counts` returns, the classification table is
consistent with the vote table — every vote row (the recompute is
global over all rows, not just the updated one) has its classification
record equal to the one recomputed from its current counts, and every
classification record's id has a vote record (given the invariant held
of the starting classification table). -/
theorem C7_consistency (s : VotingState) (tid : String) (rc : ReactionCounts)
    (hnd : (s.votes.map VoteRow.transient_id).Nodup)
    (hsub : ∀ c ∈ s.classes,
      c.transient_id ∈ s.votes.map VoteRow.transient_id) :
    (∀ r ∈ (update_vote_counts s tid rc).votes,
        findClass (update_vote_counts s tid rc).classes r.transient_id =
          some (classRowOf r)) ∧
      ∀ c ∈ (update_vote_counts s tid rc).classes,
        c.transient_id ∈
          (update_vote_counts s tid rc).votes.map VoteRow.transient_id := by
  have hnd2 := nodup_update_table s.votes tid rc hnd
  constructor
  · intro r hr
    exact findClass_updC_mem _ s.classes hnd2 r hr
  · intro c hc
    have hm := mem_map_tid_updC (update_vote_counts_table s.votes tid rc)
      s.classes c.transient_id (List.mem_map_of_mem _ hc)
    rcases hm with h | h
    · rcases List.mem_map.mp h with ⟨c0, hc0, hct⟩
      have := hsub c0 hc0
      rw [hct] at this
      exact mem_map_tid_update_table s.votes tid _ rc this
    · exact h

theorem C7_consistency_witness :
    ((([⟨"Y", 1, 0, 0, 0⟩] : List VoteRow).map VoteRow.transient_id).Nodup ∧
        ∀ c ∈ ([⟨"Y", "Unclassified", 1⟩] : List ClassRow),
          c.transient_id ∈
            ([⟨"Y", 1, 0, 0, 0⟩] : List VoteRow).map VoteRow.transient_id) ∧
      ((∀ r ∈ (update_vote_counts ⟨[⟨"Y", 1, 0, 0, 0⟩],
            [⟨"Y", "Unclassified", 1⟩]⟩ "X" [("fire", 2)]).votes,
          findClass (update_vote_counts ⟨[⟨"Y", 1, 0, 0, 0⟩],
            [⟨"Y", "Unclassified", 1⟩]⟩ "X" [("fire", 2)]).classes
              r.transient_id = some (classRowOf r)) ∧
        ∀ c ∈ (update_vote_counts ⟨[⟨"Y", 1, 0, 0, 0⟩],
            [⟨"Y", "Unclassified", 1⟩]⟩ "X" [("fire", 2)]).classes,
          c.transient_id ∈ (update_vote_counts ⟨[⟨"Y", 1, 0, 0, 0⟩],
            [⟨"Y", "Unclassified", 1⟩]⟩ "X"
              [("fire", 2)]).votes.map VoteRow.transient_id) :=
  ⟨⟨by decide, by decide⟩,
    C7_consistency ⟨[⟨"Y", 1, 0, 0, 0⟩], [⟨"Y", "Unclassified", 1⟩]⟩ "X"
      [("fire", 2)] (by decide) (by decide)⟩

/-- Replacing the first match twice with the same row is the same as
once. -/
theorem setVoteRowFirst_idem (t : List VoteRow) (tid : String) (r : VoteRow)
    (hr : r.transient_id = tid) :
    setVoteRowFirst (setVoteRowFirst t tid r) tid r =
      setVoteRowFirst t tid r := by
  induction t with
  | nil => rfl
  | cons x xs ih =>
    by_cases hx : x.transient_id = tid
    · simp [setVoteRowFirst, hx, hr]
    · simp [setVoteRowFirst, hx, ih]

/-- Replacing in a table whose only match is a trailing copy of the
replacement row changes nothing. -/
theorem setVoteRowFirst_append_no_match (t : List VoteRow) (tid : String)
    (r : VoteRow) (hr : r.transient_id = tid)
    (h : ∀ x ∈ t, x.transient_id ≠ tid) :
    setVoteRowFirst (t ++ [r]) tid r = t ++ [r] := by
  induction t with
  | nil => simp [setVoteRowFirst, hr]
  | cons x xs ih =>
    have hx := h x (by simp)
    show setVoteRowFirst (x :: (xs ++ [r])) tid r = x :: (xs ++ [r])
    simp only [setVoteRowFirst, if_neg hx]
    rw [ih (fun y hy => h y (by simp [hy]))]

/-- A table containing an id reports a match for it. -/
theorem any_of_tid_mem (t : List VoteRow) (tid : String)
    (h : tid ∈ t.map VoteRow.transient_id) :
    t.any (fun r => r.transient_id = tid) = true := by
  rcases List.mem_map.mp h with ⟨r, hr, hrt⟩
  simp only [List.any_eq_true]
  exact ⟨r, hr, by simp [hrt]⟩

/-- The updated id is present after `update_vote_counts`. -/
theorem tid_mem_update_table (t : List VoteRow) (tid : String)
    (rc : ReactionCounts) :
    tid ∈ (update_vote_counts_table t tid rc).map VoteRow.transient_id := by
  unfold update_vote_counts_table
  by_cases ha : t.any (fun r => r.transient_id = tid)
  · rw [if_pos ha, map_tid_setVoteRowFirst t tid _ rfl]
    simp only [List.any_eq_true] at ha
    rcases ha with ⟨r, hr, hrt⟩
    exact List.mem_map.mpr ⟨r, hr, of_decide_eq_true hrt⟩
  · rw [if_neg ha]
    simp [mkVoteRow]

/-- Applying the vote-table update twice with the same arguments equals
applying it once. -/
theorem update_table_idem (t : List VoteRow) (tid : String)
    (rc : ReactionCounts) :
    update_vote_counts_table (update_vote_counts_table t tid rc) tid rc =
      update_vote_counts_table t tid rc := by
  have hany := any_of_tid_mem _ tid (tid_mem_update_table t tid rc)
  have h1 : ∀ u : List VoteRow, u.any (fun r => r.transient_id = tid) = true →
      update_vote_counts_table u tid rc =
        setVoteRowFirst u tid (mkVoteRow tid rc) := by
    intro u hu
    unfold update_vote_counts_table
    rw [if_pos hu]
  rw [h1 _ hany]
  unfold update_vote_counts_table
  by_cases ha : t.any (fun r => r.transient_id = tid)
  · rw [if_pos ha]
    exact setVoteRowFirst_idem t tid _ rfl
  · rw [if_neg ha]
    exact setVoteRowFirst_append_no_match t tid _ rfl (by simpa using ha)

/-- Two classification tables that differ only in the non-id fields of
the first row carrying id `t` (no earlier row carries `t`). Upserts for
`t` land on that row in both tables, so a later upsert for `t` erases
the difference. -/
inductive DiffAtFirst (t : String) : List ClassRow → List ClassRow → Prop
  | mid (a b : ClassRow) (post : List ClassRow) (ha : a.transient_id = t)
      (hb : b.transient_id = t) : DiffAtFirst t (a :: post) (b :: post)
  | cons (p : ClassRow) (hp : p.transient_id ≠ t) {X Y : List ClassRow}
      (h : DiffAtFirst t X Y) : DiffAtFirst t (p :: X) (p :: Y)

theorem DiffAtFirst.map_tid {t : String} {X Y : List ClassRow}
    (h : DiffAtFirst t X Y) :
    X.map ClassRow.transient_id = Y.map ClassRow.transient_id := by
  induction h with
  | mid a b post ha hb => simp [ha, hb]
  | cons p hp h ih => simp [ih]

theorem DiffAtFirst.mem_right {t : String} {X Y : List ClassRow}
    (h : DiffAtFirst t X Y) : t ∈ Y.map ClassRow.transient_id := by
  induction h with
  | mid a b post ha hb => simp [hb]
  | cons p hp h ih => simp [ih]

theorem DiffAtFirst.any_eq {t : String} {X Y : List ClassRow}
    (h : DiffAtFirst t X Y) (s : String) :
    X.any (fun c => c.transient_id = s) = Y.any (fun c => c.transient_id = s) := by
  induction h with
  | mid a b post ha hb =>
    simp only [List.any_cons]
    rw [ha, hb]
  | cons p hp h ih => simp only [List.any_cons, ih]

theorem DiffAtFirst.append_right {t : String} {X Y : List ClassRow}
    (h : DiffAtFirst t X Y) (Z : List ClassRow) :
    DiffAtFirst t (X ++ Z) (Y ++ Z) := by
  induction h with
  | mid a b post ha hb => exact .mid a b (post ++ Z) ha hb
  | cons p hp h ih => exact .cons p hp ih

theorem DiffAtFirst.setFirst_ne {t : String} {X Y : List ClassRow}
    (h : DiffAtFirst t X Y) (cr : ClassRow) (hcr : cr.transient_id ≠ t) :
    DiffAtFirst t (setClassRowFirst X cr) (setClassRowFirst Y cr) := by
  induction h with
  | mid a b post ha hb =>
    have hna : ¬ a.transient_id = cr.transient_id := fun hh => hcr (hh ▸ ha)
    have hnb : ¬ b.transient_id = cr.transient_id := fun hh => hcr (hh ▸ hb)
    simp only [setClassRowFirst, if_neg hna, if_neg hnb]
    exact .mid a b (setClassRowFirst post cr) ha hb
  | cons p hp h ih =>
    by_cases hpc : p.transient_id = cr.transient_id
    · simp only [setClassRowFirst, if_pos hpc]
      exact .cons ⟨p.transient_id, cr.classification, cr.confidence⟩ hp h
    · simp only [setClassRowFirst, if_neg hpc]
      exact .cons p hp ih

theorem DiffAtFirst.setFirst_eq {t : String} {X Y : List ClassRow}
    (h : DiffAtFirst t X Y) (cr : ClassRow) (hcr : cr.transient_id = t) :
    setClassRowFirst X cr = setClassRowFirst Y cr := by
  induction h with
  | mid a b post ha hb =>
    obtain ⟨ta, ca, fa⟩ := a
    obtain ⟨tb, cb, fb⟩ := b
    simp only at ha hb
    have hpa : ta = cr.transient_id := by rw [ha, hcr]
    have hpb : tb = cr.transient_id := by rw [hb, hcr]
    simp only [setClassRowFirst, if_pos hpa, if_pos hpb]
    rw [ha, hb]
  | cons p hp h ih =>
    have hpc : ¬ p.transient_id = cr.transient_id :=
      fun hh => hp (hh.trans hcr)
    simp only [setClassRowFirst, if_neg hpc]
    rw [ih]

theorem DiffAtFirst.upsert_ne {t : String} {X Y : List ClassRow}
    (h : DiffAtFirst t X Y) (cr : ClassRow) (hcr : cr.transient_id ≠ t) :
    DiffAtFirst t (upsertClassRow X cr) (upsertClassRow Y cr) := by
  unfold upsertClassRow
  rw [h.any_eq cr.transient_id]
  by_cases ha : Y.any (fun c => c.transient_id = cr.transient_id)
  · rw [if_pos ha, if_pos ha]
    exact h.setFirst_ne cr hcr
  · rw [if_neg ha, if_neg ha]
    exact h.append_right [cr]

/-- A classification table containing an id reports a match for it. -/
theorem anyClass_of_tid_mem (X : List ClassRow) (t : String)
    (h : t ∈ X.map ClassRow.transient_id) :
    X.any (fun c => c.transient_id = t) = true := by
  rcases List.mem_map.mp h with ⟨c, hc, hct⟩
  simp only [List.any_eq_true]
  exact ⟨c, hc, by simp [hct]⟩

theorem DiffAtFirst.upsert_eq {t : String} {X Y : List ClassRow}
    (h : DiffAtFirst t X Y) (cr : ClassRow) (hcr : cr.transient_id = t) :
    upsertClassRow X cr = upsertClassRow Y cr := by
  unfold upsertClassRow
  rw [h.any_eq cr.transient_id, hcr,
    if_pos (anyClass_of_tid_mem Y t h.mem_right),
    if_pos (anyClass_of_tid_mem Y t h.mem_right)]
  exact h.setFirst_eq cr hcr

/-- A successful first-match lookup means the table reports a match. -/
theorem findClass_any (X : List ClassRow) (s : String) (c : ClassRow)
    (h : findClass X s = some c) :
    X.any (fun x => x.transient_id = s) = true := by
  unfold findClass at h
  have hm := List.mem_of_find?_eq_some h
  have hp := List.find?_some h
  simp only [List.any_eq_true]
  exact ⟨c, hm, hp⟩

/-- Overwriting the first match with the value it already holds changes
nothing. -/
theorem setFirst_noop (X : List ClassRow) (cr : ClassRow)
    (h : findClass X cr.transient_id = some cr) :
    setClassRowFirst X cr = X := by
  induction X with
  | nil => simp [findClass, List.find?] at h
  | cons x xs ih =>
    by_cases hx : x.transient_id = cr.transient_id
    · have hxcr : x = cr := by
        unfold findClass at h
        simp only [List.find?] at h
        rw [decide_eq_true hx] at h
        exact Option.some.inj h
      subst hxcr
      simp [setClassRowFirst, hx]
    · have h2 : findClass xs cr.transient_id = some cr := by
        unfold findClass at h ⊢
        simp only [List.find?] at h
        rw [decide_eq_false hx] at h
        exact h
      simp only [setClassRowFirst, if_neg hx]
      rw [ih h2]

/-- An upsert whose value is already stored at the first match is a
no-op. -/
theorem upsert_noop (X : List ClassRow) (cr : ClassRow)
    (h : findClass X cr.transient_id = some cr) :
    upsertClassRow X cr = X := by
  unfold upsertClassRow
  rw [if_pos (findClass_any X cr.transient_id cr h)]
  exact setFirst_noop X cr h

/-- Replacing the first matching row relates a table to itself in the
`DiffAtFirst` sense. -/
theorem diff_setFirst (X : List ClassRow) (cr : ClassRow) {t : String}
    (hcr : cr.transient_id = t) (hmem : t ∈ X.map ClassRow.transient_id) :
    DiffAtFirst t X (setClassRowFirst X cr) := by
  induction X with
  | nil => simp at hmem
  | cons x xs ih =>
    by_cases hx : x.transient_id = cr.transient_id
    · simp only [setClassRowFirst, if_pos hx]
      exact .mid x ⟨x.transient_id, cr.classification, cr.confidence⟩ xs
        (hx.trans hcr) (hx.trans hcr)
    · simp only [setClassRowFirst, if_neg hx]
      refine .cons x (fun hh => hx (hh.trans hcr.symm)) (ih ?_)
      simp only [List.map_cons, List.mem_cons] at hmem
      rcases hmem with hh | hh
      · exact absurd (hh.symm.trans hcr.symm) hx
      · exact hh

/-- Upserting an id already present relates a table to the result in
the `DiffAtFirst` sense. -/
theorem diff_upsert (X : List ClassRow) (cr : ClassRow) {t : String}
    (hcr : cr.transient_id = t) (hmem : t ∈ X.map ClassRow.transient_id) :
    DiffAtFirst t X (upsertClassRow X cr) := by
  unfold upsertClassRow
  rw [if_pos (by rw [hcr]; exact anyClass_of_tid_mem X t hmem)]
  exact diff_setFirst X cr hcr hmem

/-- The upserted id is present afterwards. -/
theorem tid_mem_upsert (X : List ClassRow) (cr : ClassRow) :
    cr.transient_id ∈ (upsertClassRow X cr).map ClassRow.transient_id := by
  unfold upsertClassRow
  by_cases ha : X.any (fun c => c.transient_id = cr.transient_id)
  · rw [if_pos ha, map_tid_setClassRowFirst]
    rcases List.any_eq_true.mp ha with ⟨c, hc, hct⟩
    exact List.mem_map.mpr ⟨c, hc, (of_decide_eq_true hct).symm ▸ rfl⟩
  · rw [if_neg ha]
    simp

/-- Ids present before an upsert remain present. -/
theorem mem_map_tid_upsert_mono (X : List ClassRow) (cr : ClassRow)
    (s : String) (h : s ∈ X.map ClassRow.transient_id) :
    s ∈ (upsertClassRow X cr).map ClassRow.transient_id := by
  unfold upsertClassRow
  by_cases ha : X.any (fun c => c.transient_id = cr.transient_id)
  · rw [if_pos ha, map_tid_setClassRowFirst]
    exact h
  · rw [if_neg ha]
    simp only [List.map_append, List.mem_append]
    exact Or.inl h

/-- Ids present before the full recompute remain present. -/
theorem mem_map_tid_updC_mono (V : List VoteRow) (cdf : List ClassRow)
    (s : String) (h : s ∈ cdf.map ClassRow.transient_id) :
    s ∈ (update_classifications V cdf).map ClassRow.transient_id := by
  induction V generalizing cdf with
  | nil => exact h
  | cons v vs ih =>
    simp only [update_classifications]
    exact ih _ (mem_map_tid_upsert_mono cdf (classRowOf v) s h)

/-- Recomputing over two tables that differ only at the first slot of
an id that the vote list will overwrite gives equal results. -/
theorem updC_diff_eq (rs : List VoteRow) {t : String} {X Y : List ClassRow}
    (h : DiffAtFirst t X Y) (hmem : t ∈ rs.map VoteRow.transient_id) :
    update_classifications rs X = update_classifications rs Y := by
  induction rs generalizing X Y with
  | nil => simp at hmem
  | cons r rest ih =>
    by_cases hr : r.transient_id = t
    · have heq : upsertClassRow X (classRowOf r) =
          upsertClassRow Y (classRowOf r) :=
        h.upsert_eq (classRowOf r) hr
      simp only [update_classifications, heq]
    · have hmem2 : t ∈ rest.map VoteRow.transient_id := by
        simp only [List.map_cons, List.mem_cons] at hmem
        rcases hmem with hh | hh
        · exact absurd hh.symm hr
        · exact hh
      simp only [update_classifications]
      exact ih (h.upsert_ne (classRowOf r) hr) hmem2

/-- Running the full classification recompute twice over the same vote
table equals running it once. -/
theorem updC_idem (V : List VoteRow) (cdf : List ClassRow) :
    update_classifications V (update_classifications V cdf) =
      update_classifications V cdf := by
  induction V generalizing cdf with
  | nil => rfl
  | cons r rs ih =>
    simp only [update_classifications]
    by_cases hmem : r.transient_id ∈ rs.map VoteRow.transient_id
    · have hX : r.transient_id ∈ (update_classifications rs
          (upsertClassRow cdf (classRowOf r))).map ClassRow.transient_id :=
        mem_map_tid_updC_mono rs _ _
          (tid_mem_upsert cdf (classRowOf r))
      have hd := diff_upsert (update_classifications rs
        (upsertClassRow cdf (classRowOf r))) (classRowOf r) rfl hX
      rw [← updC_diff_eq rs hd hmem]
      exact ih _
    · have hfc : findClass (update_classifications rs
          (upsertClassRow cdf (classRowOf r)))
            r.transient_id = some (classRowOf r) := by
        rw [findClass_updC_not_mem rs _ _ hmem]
        exact findClass_upsert_self cdf (classRowOf r)
      rw [upsert_noop _ (classRowOf r) hfc]
      exact ih _

/-- C8: `update_vote_counts` is idempotent — calling it twice in a row
with the same identifier and the same reaction counts produces the same
persisted vote table and classification table as calling it once, from
any starting state. -/
theorem C8_idempotent (s : VotingState) (tid : String) (rc : ReactionCounts) :
    update_vote_counts (update_vote_counts s tid rc) tid rc =
      update_vote_counts s tid rc := by
  show VotingState.mk
      (update_vote_counts_table (update_vote_counts_table s.votes tid rc) tid rc)
      (update_classifications
        (update_vote_counts_table (update_vote_counts_table s.votes tid rc)
          tid rc)
        (update_classifications (update_vote_counts_table s.votes tid rc)
          s.classes)) =
    VotingState.mk (update_vote_counts_table s.votes tid rc)
      (update_classifications (update_vote_counts_table s.votes tid rc)
        s.classes)
  rw [update_table_idem, updC_idem]
